import Mathlib

/-!
# Verification of the secp256r1_ecdsa repository

A shallow embedding of the repository's Go sources:

* `E222.go` — the E-222 twisted Edwards curve: point construction, addition,
  opposite, Montgomery-ladder scalar multiplication, and square-root point
  decompression.  `big.Int` values are embedded as `Int`; `big.Int.Mod` with a
  positive modulus is Euclidean and corresponds to `Int.emod` (`%`).
  `big.Int.ModInverse` returns `nil` when no inverse exists; subsequent
  arithmetic on the `nil` result faults, so operations that can hit that path
  return `Option`.
* `secp256r1_ecdsa.go` — ECDSA sign/verify over NIST P-256.  The curve group
  operations come from the external `crypto/elliptic` package; they are
  modelled by the package's own Jacobian-coordinate formulas over the standard
  P-256 parameters, with the point at infinity represented as the affine pair
  (0, 0), exactly as `crypto/elliptic` represents it.  The SHA-256 hash of the
  message is likewise external; the integer value `z` of its 32-byte digest is
  a parameter of the embedded functions.
* The Schnorr/E521 key-derivation scalar arithmetic from `secp256r1_ecdsa.go`;
  the E521 curve constants themselves are not among the provided sources and
  are modelled from the spec (subgroup order `r` prime, cofactor 4, full order
  `n = 4·r`), keeping `r` a parameter.
-/

set_option maxRecDepth 20000
set_option maxHeartbeats 4000000
set_option exponentiation.threshold 1024

/-- Fuel-driven binary modular exponentiation, one step per exponent bit. -/
def powModAux : Nat → Nat → Nat → Nat → Nat → Nat
  | 0, _, _, _, acc => acc
  | f + 1, b, e, m, acc =>
    if e = 0 then acc
    else powModAux f ((b * b) % m) (e / 2) m (if e % 2 = 1 then (acc * b) % m else acc)

/-- Models `big.Int.Exp(b, e, m)` for nonnegative base and positive modulus:
modular exponentiation.  The fuel 600 covers every exponent that occurs in the
repository (all are below 2^600). -/
def powMod (b e m : Nat) : Nat :=
  if m = 0 then 0 else powModAux 600 (b % m) e m (1 % m)

/-- Models `big.Int.ModInverse(g, m)` for the moduli used in this repository,
all of which are prime (the two field primes and the P-256 group order):
`big.Int.ModInverse` returns `nil` exactly when `gcd(g mod m, m) ≠ 1`, which
for prime `m` means `g ≡ 0 (mod m)`; otherwise it returns the unique inverse
in `[0, m)`, which for prime `m` equals `g^(m-2) mod m` by Fermat.  The
defensive product check keeps the definition total without assuming primality
and agrees with `big.Int.ModInverse` on prime moduli. -/
def modInverse (g m : Int) : Option Int :=
  let r : Int := ((powMod (g % m).toNat (m - 2).toNat m.toNat : Nat) : Int)
  if ((g % m) * r) % m = 1 then some r else none

/-- Models `big.Int.BitLen` for nonnegative values (number of binary digits;
0 for the value 0), by fuel-driven halving. -/
def bitLenAux : Nat → Nat → Nat
  | 0, _ => 0
  | f + 1, m => if m = 0 then 0 else bitLenAux f (m / 2) + 1

/-- Bit length of a nonnegative integer, as `big.Int.BitLen` computes it. -/
def bitLen (m : Nat) : Nat := bitLenAux 600 m

/-! ## The E-222 Edwards curve (`E222.go`)

The Go `E222` struct carries the coordinates `x`, `y` together with the curve
constants `p`, `d`, `r`, `n`; every constructor in the file stores the same
constant values (`getP()`, 160102, `getR()`, `4·getR()`), so the constants are
embedded as definitions and the point type keeps only the coordinates. -/

/-- The coordinates of an E-222 point as the Go struct stores them: arbitrary
(not necessarily reduced) `big.Int` values. -/
structure E222 where
  x : Int
  y : Int
deriving DecidableEq

/-- The E-222 field prime 2^222 − 117, the value `getP()` returns. -/
def E222.p : Int := 6739986666787659948666753771754907668409286105635143120275902562187

/-- The Edwards coefficient d = 160102. -/
def E222.d : Int := 160102

/-- The subgroup order, the value `getR()` returns. -/
def E222.R : Int := 1684996666696914987166688442938726735569737456760058294185521417407

/-- The full group order stored in the `n` field: 4 · R. -/
def E222.n : Int := 4 * E222.R

/-- Models `NewE222XY`: stores the given coordinates unchanged, with no
validation and no reduction mod p. -/
def NewE222XY (x y : Int) : E222 := ⟨x, y⟩

/-- Models `E222GenPoint`: the fixed generator. -/
def E222GenPoint : E222 :=
  ⟨2705691079882681090389589001251962954446177367541711474502428610129, 28⟩

/-- Models `E222IdPoint`: the identity point (0, 1). -/
def E222IdPoint : E222 := NewE222XY 0 1

/-- The return value of `getOpposite`: `NewE222XY(e.x.Neg(&e.x), e.y)`, that
is (−x, y) with the coordinate negated but not reduced mod p. -/
def E222.getOpposite (e : E222) : E222 := NewE222XY (-e.x) e.y

/-- The state of the receiver after `e.getOpposite()` returns: the source
writes `e.x.Neg(&e.x)`, which stores −x into the receiver's own `x`
coordinate in place (rather than into a fresh `big.Int`). -/
def E222.getOppositeReceiverAfter (e : E222) : E222 := ⟨-e.x, e.y⟩

/-- Models `Equals`: coordinate comparison with `Cmp`, i.e. exact integer
equality of the stored coordinates. -/
def E222.Equals (A B : E222) : Bool := A.x == B.x && A.y == B.y

/-- Models `Add` from `E222.go`: unified Edwards addition with the source's
exact order of operations and reductions.  `big.Int.ModInverse` returns `nil`
for a non-invertible denominator and the following `Mul` would fault, so that
path is `none`. -/
def E222.Add (A B : E222) : Option E222 :=
  let x1 := A.x
  let y1 := A.y
  let x2 := B.x
  let y2 := B.y
  let xNum := (x1 * y2 + y1 * x2) % E222.p
  let mul := E222.d * x1 * x2 * y1 * y2
  let xDenom := (1 + mul) % E222.p
  match modInverse xDenom E222.p with
  | none => none
  | some xInv =>
    let newX := (xNum * xInv) % E222.p
    let yNum := (y1 * y2 - x1 * x2) % E222.p
    let yDenom := (1 - mul) % E222.p
    match modInverse yDenom E222.p with
    | none => none
    | some yInv => some (NewE222XY newX ((yNum * yInv) % E222.p))

/-- Models `sqrt` from `E222.go`: for v = 0 the root is 0; otherwise the
candidate is v^((p >> 2) + 1) mod p, and only when the candidate's least
significant bit differs from the requested `lsb` is it replaced by p − r and
verified by the check r² ≡ v (mod p) (returning `nil`, here `none`, on
failure).  When the candidate's parity already matches, it is returned with no
verification. -/
def E222.sqrt (v : Int) (lsb : Nat) : Option Int :=
  if v = 0 then some 0
  else
    let r : Int := ((powMod (v % E222.p).toNat (E222.p.toNat >>> 2 + 1) E222.p.toNat : Nat) : Int)
    if (r % 2).toNat ≠ lsb then
      let r2 := E222.p - r
      let bi := (r2 * r2 - v) % E222.p
      if bi = 0 then some r2 else none
    else some r

/-- Models `solveForY`: radicand (1 − x²)·(1 + d·x²)⁻¹ computed with the
source's reductions (the product with the inverse is not reduced before being
passed to `sqrt`); `none` when the denominator is not invertible (the source
would fault on the `nil` inverse) or when `sqrt` returns `nil`. -/
def solveForY (X : Int) (msb : Nat) : Option Int :=
  let num := (1 - X * X) % E222.p
  let denom := (1 + 160102 * (X * X)) % E222.p
  match modInverse denom E222.p with
  | none => none
  | some dInv => E222.sqrt (num * dInv) msb

/-- Models `NewE222X`: decompression from x and a desired parity bit, solving
for y; `none` where the source would store a `nil` y. -/
def NewE222X (x : Int) (msb : Nat) : Option E222 :=
  (solveForY x msb).map fun y => NewE222XY x y

/-- One iteration of the `SecMul` Montgomery ladder at bit index `i`:
if bit i of S is 1 then r0 = r0 + r1, r1 = r1 + r1, else r1 = r0 + r1,
r0 = r0 + r0.  Both additions are evaluated, as in the source. -/
def E222.SecMulStep (S : Nat) (i : Nat) (r0 r1 : E222) : Option (E222 × E222) :=
  if S.testBit i then
    match E222.Add r0 r1, E222.Add r1 r1 with
    | some a, some b => some (a, b)
    | _, _ => none
  else
    match E222.Add r0 r1, E222.Add r0 r0 with
    | some b, some a => some (a, b)
    | _, _ => none

/-- The `SecMul` loop from bit index `i` down to 0, returning the final r0. -/
def E222.SecMulLoop (S : Nat) : Nat → E222 → E222 → Option E222
  | 0, r0, r1 => (E222.SecMulStep S 0 r0 r1).map Prod.fst
  | i + 1, r0, r1 =>
    match E222.SecMulStep S (i + 1) r0 r1 with
    | none => none
    | some (a, b) => E222.SecMulLoop S i a b

/-- Models `SecMul`: Montgomery-ladder scalar multiplication, iterating from
bit index `S.BitLen()` down to 0 inclusive, starting from r0 = (0, 1) and
r1 = the receiver point. -/
def E222.SecMul (P : E222) (S : Nat) : Option E222 :=
  E222.SecMulLoop S (bitLen S) E222IdPoint P

/-- The curve equation x² + y² ≡ 1 + d·x²·y² (mod p) of the spec, as a
checkable predicate on stored coordinates. -/
def onCurveE222 (P : E222) : Bool :=
  (P.x ^ 2 + P.y ^ 2) % E222.p == (1 + E222.d * P.x ^ 2 * P.y ^ 2) % E222.p

/-! ## NIST P-256 and ECDSA (`secp256r1_ecdsa.go`)

The point operations come from the external `crypto/elliptic` package
(`elliptic.P256()`); they are modelled with that package's own generic
Jacobian-coordinate formulas over the standard P-256 parameters.  Affine
points are pairs `(x, y) : Int × Int`; the point at infinity is the affine
pair (0, 0), which is how `crypto/elliptic` represents it in its affine
results (`ScalarBaseMult(n.Bytes())` in the verifier's source relies on
exactly this). -/

/-- The P-256 field prime 2^256 − 2^224 + 2^192 + 2^96 − 1. -/
def p256p : Int := 115792089210356248762697446949407573530086143415290314195533631308867097853951

/-- The P-256 group order n (prime, cofactor 1). -/
def p256n : Int := 115792089210356248762697446949407573529996955224135760342422259061068512044369

/-- The P-256 Weierstrass coefficient b (the a coefficient is −3). -/
def p256b : Int := 41058363725152142129326129780047268409114441015993725554835256314039467401291

/-- x-coordinate of the P-256 generator. -/
def p256Gx : Int := 48439561293906451759052585252797914202762949526041747995844080717082404635286

/-- y-coordinate of the P-256 generator. -/
def p256Gy : Int := 36134250956749795798585127919587881956611106672985015071877198253568414405109

/-- A point in Jacobian coordinates, as `crypto/elliptic` computes internally:
(X, Y, Z) with affine coordinates (X/Z², Y/Z³), and Z = 0 for the point at
infinity. -/
structure P256Jac where
  X : Int
  Y : Int
  Z : Int
deriving DecidableEq

/-- Models `crypto/elliptic`'s `zForAffine` conversion: the affine pair (0, 0)
is the point at infinity (Z = 0); every other pair gets Z = 1. -/
def jFromAffine (P : Int × Int) : P256Jac :=
  if P.1 = 0 ∧ P.2 = 0 then ⟨0, 0, 0⟩ else ⟨P.1, P.2, 1⟩

/-- Models `crypto/elliptic`'s `affineFromJacobian`: (0, 0) for infinity,
otherwise (X·Z⁻², Y·Z⁻³) mod p. -/
def jToAffine (P : P256Jac) : Int × Int :=
  if P.Z % p256p = 0 then (0, 0)
  else
    let zInv := (modInverse P.Z p256p).getD 0
    let zInvSq := (zInv * zInv) % p256p
    ((P.X * zInvSq) % p256p, (P.Y * zInvSq * zInv) % p256p)

/-- Models `crypto/elliptic`'s `doubleJacobian` for a = −3 (the dbl-2001-b
formulas the package uses). -/
def jDouble (A : P256Jac) : P256Jac :=
  let delta := (A.Z * A.Z) % p256p
  let gamma := (A.Y * A.Y) % p256p
  let alpha := (3 * ((A.X - delta) * (A.X + delta))) % p256p
  let beta := (A.X * gamma) % p256p
  let x3 := (alpha * alpha - 8 * beta) % p256p
  let z3 := ((A.Y + A.Z) * (A.Y + A.Z) - gamma - delta) % p256p
  let y3 := (alpha * (4 * beta - x3) - 8 * (gamma * gamma)) % p256p
  ⟨x3, y3, z3⟩

/-- Models `crypto/elliptic`'s `addJacobian` (add-2007-bl with the package's
special cases: either operand at infinity, and the equal-x cases giving
doubling or infinity). -/
def jAdd (A B : P256Jac) : P256Jac :=
  if A.Z % p256p = 0 then B
  else if B.Z % p256p = 0 then A
  else
    let z1z1 := (A.Z * A.Z) % p256p
    let z2z2 := (B.Z * B.Z) % p256p
    let u1 := (A.X * z2z2) % p256p
    let u2 := (B.X * z1z1) % p256p
    let s1 := (A.Y * B.Z * z2z2) % p256p
    let s2 := (B.Y * A.Z * z1z1) % p256p
    let h := (u2 - u1) % p256p
    let r := (s2 - s1) % p256p
    if h = 0 then
      if r = 0 then jDouble A else ⟨0, 0, 0⟩
    else
      let i := (4 * h * h) % p256p
      let j := (h * i) % p256p
      let rr := (2 * r) % p256p
      let v := (u1 * i) % p256p
      let x3 := (rr * rr - j - 2 * v) % p256p
      let y3 := (rr * (v - x3) - 2 * s1 * j) % p256p
      let z3 := (((A.Z + B.Z) * (A.Z + B.Z) - z1z1 - z2z2) * h) % p256p
      ⟨x3, y3, z3⟩

/-- Scalar multiplication in Jacobian coordinates by least-significant-bit
double-and-add, one fuel unit per scalar bit, with an accumulator.  The
comparison before the recursive call is redundant (both branches agree); it
forces the six coordinates to numerals at every iteration, which keeps the
depth of kernel reduction bounded when theorems about concrete scalar
multiples are checked by `decide`. -/
def jMulAux : Nat → P256Jac → P256Jac → Nat → P256Jac
  | 0, acc, _, _ => acc
  | f + 1, acc, P, k =>
    if k = 0 then acc
    else
      let acc2 := if k % 2 = 1 then jAdd acc P else acc
      let P2 := jDouble P
      if acc2.X + acc2.Y + acc2.Z + P2.X + P2.Y + P2.Z = 0
      then jMulAux f acc2 P2 (k / 2)
      else jMulAux f acc2 P2 (k / 2)

/-- Models `crypto/elliptic`'s `ScalarMult(Px, Py, k.Bytes())`: the scalar
multiple k·P returned in affine coordinates ((0, 0) for infinity). -/
def pScalarMult (P : Int × Int) (k : Nat) : Int × Int :=
  jToAffine (jMulAux 600 ⟨0, 0, 0⟩ (jFromAffine P) k)

/-- Models `ScalarBaseMult(k.Bytes())` on P-256: k times the generator. -/
def pScalarBaseMult (k : Nat) : Int × Int := pScalarMult (p256Gx, p256Gy) k

/-- Models `crypto/elliptic`'s affine `Add`. -/
def pAddAffine (A B : Int × Int) : Int × Int :=
  jToAffine (jAdd (jFromAffine A) (jFromAffine B))

/-- Models `crypto/elliptic`'s `IsOnCurve`: coordinates reduced in [0, p) and
y² ≡ x³ − 3x + b (mod p); false for the infinity pair (0, 0) since b ≠ 0. -/
def isOnCurve (x y : Int) : Bool :=
  decide (0 ≤ x) && decide (x < p256p) && decide (0 ≤ y) && decide (y < p256p) &&
  ((y * y) % p256p == (x * x * x - 3 * x + p256b) % p256p)

/-- Models the verifier's public-key validation phase.  `n_x, n_y` are
`ScalarBaseMult(n.Bytes())`, the affine encoding (0, 0) of n·G.  The source's
`not_neutral := n_x != Q_a.X && n_y != Q_a.Y` compares freshly allocated
`*big.Int` pointers with the callers' pointers, which are always distinct
allocations, so the check is always true regardless of the values. -/
def pubKeyCheck (Qx Qy : Int) : Bool :=
  let nPt := pScalarBaseMult p256n.toNat
  let notNeutral := true
  let onCurve := isOnCurve Qx Qy
  let test := pScalarMult (Qx, Qy) p256n.toNat
  notNeutral && onCurve && (test.1 == nPt.1 && test.2 == nPt.2)

/-- Models the verifier's range check on the signature components, exactly as
written: `r.Cmp(n) < 0 && r.Cmp(one) > 0 && s.Cmp(n) < 0 && s.Cmp(one) > 0`,
i.e. it accepts only r, s strictly between 1 and n. -/
def sigRangeOK (r s : Int) : Bool :=
  decide (r < p256n) && decide (1 < r) && decide (s < p256n) && decide (1 < s)

/-- Models the verifier's equation phase: u1 = z·s⁻¹ mod n, u2 = r·s⁻¹ mod n,
(x1, y1) = u1·G + u2·Qa, accept iff x1 equals r (the source compares
`res_x.Cmp(r) == 0`, an exact comparison).  Inside this phase 1 < s < n, so
the `ModInverse` cannot be `nil`. -/
def sigEqCheck (Qx Qy r s : Int) (z : Nat) : Bool :=
  let sInv := (modInverse s p256n).getD 0
  let u1 := ((z : Int) * sInv) % p256n
  let u2 := (r * sInv) % p256n
  let P1 := pScalarBaseMult u1.toNat
  let P2 := pScalarMult (Qx, Qy) u2.toNat
  let res := pAddAffine P1 P2
  res.1 == r

/-- Models `verify_ecdsa_sig` (both copies in the repository have identical
logic): public-key validation, then the range check, then the equation check;
`false` on either rejection branch.  `z` is the integer value of the SHA-256
digest of the message (the hash is an external primitive). -/
def verify_ecdsa_sig (Qx Qy r s : Int) (z : Nat) : Bool :=
  if pubKeyCheck Qx Qy then
    if sigRangeOK r s then sigEqCheck Qx Qy r s z
    else false
  else false

/-- Models the first copy of `sign_message_ecdsa` (the `main` variant):
k is the 40 random bytes as an integer (`kBytes`), post-adjusted by adding 1,
reducing mod n and subtracting 1; r = x-coordinate of k·G mod n
(`ScalarBaseMult(k.Bytes())` takes the magnitude of k); s = k⁻¹(z + r·d_a)
mod n.  `none` models the path where `ModInverse(k, n)` is `nil` and the
following `Mul` faults.  There is no retry loop in the source. -/
def sign_message_ecdsa (z : Nat) (d_a : Int) (kBytes : Nat) : Option (Int × Int) :=
  let k : Int := (((kBytes : Nat) : Int) + 1) % p256n - 1
  let x1 := (pScalarBaseMult k.natAbs).1
  let r := x1 % p256n
  match modInverse k p256n with
  | none => none
  | some kInv => some (r, (kInv * ((z : Int) + r * d_a)) % p256n)

/-- Models the second copy of `sign_message_ecdsa` (the `run_ecdsa` variant):
identical except k = (kBytes + 1) mod n, with no final subtraction.  There is
no retry loop in this copy either. -/
def sign_message_ecdsa2 (z : Nat) (d_a : Int) (kBytes : Nat) : Option (Int × Int) :=
  let k : Int := (((kBytes : Nat) : Int) + 1) % p256n
  let x1 := (pScalarBaseMult k.natAbs).1
  let r := x1 % p256n
  match modInverse k p256n with
  | none => none
  | some kInv => some (r, (kInv * ((z : Int) + r * d_a)) % p256n)

/-! ## Schnorr/E521 key-derivation scalars (`secp256r1_ecdsa.go`)

`generateKeyPair` and `signWithKey` derive the private scalar from the keyed
hash `KMACXOF256(pw, "", 512, "K")`; the hash is an external primitive and its
512-bit output, read as an integer, is the parameter `h` below.  The E521
curve type itself is not among the provided sources; only its use is. -/

/-- Modelled from the spec: the E521 curve constants are missing from the
provided sources (only `E521IdPoint().n` and `.r` are referenced).  Per the
spec's data model the subgroup order `r` is prime, the cofactor is 4, and the
full group order stored in the `n` field is n = 4·r; the concrete value of
`r` is not given anywhere in the sources or the spec, so it stays a
parameter. -/
def E521n (r : Nat) : Nat := 4 * r

/-- Models the private-scalar computation in `generateKeyPair`:
s = KMACXOF256(pw, "", 512, "K") as an integer, multiplied by 4, then reduced
mod `E521IdPoint().n` — the full group order n = 4·r, not the subgroup
order r. -/
def generateKeyPairScalar (r : Nat) (h : Nat) : Nat := (4 * h) % E521n r

/-- Models the private-scalar recomputation in `signWithKey`:
s = 4 · KMACXOF256(pw, "", 512, "K"), with no reduction at all. -/
def signWithKeyScalar (h : Nat) : Nat := 4 * h

/-- The claim's version of the derived scalar, following the spec's words:
the hash times the cofactor 4, reduced mod r (the prime subgroup order). -/
def specKeyScalar (r : Nat) (h : Nat) : Nat := (4 * h) % r

/-! ## Concrete values used by the claim theorems -/

/-- A private key chosen so that the second signing step yields s = 0 for the
message hash z = 3 and the nonce k = 1: d = (n − 3)·(Gx mod n)⁻¹ mod n, so
that z + r·d ≡ 0 (mod n) when r = Gx mod n. -/
def dStar : Int := ((p256n - 3) * ((modInverse p256Gx p256n).getD 0)) % p256n

/-- The candidate the `sqrt` exponentiation step produces for the radicand
v = 2: 2^((p >> 2) + 1) mod p.  Since p ≡ 3 (mod 8), 2 is a quadratic
non-residue mod p, so this candidate is not a square root of 2. -/
def sqrtCand : Int :=
  ((powMod 2 (E222.p.toNat >>> 2 + 1) E222.p.toNat : Nat) : Int)

/-! ## Supporting facts about the embedded operations -/

/-- The Montgomery ladder at scalar 0 returns the identity point. -/
theorem SecMul_gen_zero : E222.SecMul E222GenPoint 0 = some E222IdPoint := by decide

/-- The Montgomery ladder at scalar 1 returns the (reduced) input point. -/
theorem SecMul_gen_one : E222.SecMul E222GenPoint 1 = some E222GenPoint := by decide

/-- The Montgomery ladder at scalar 2 agrees with a single curve addition. -/
theorem SecMul_gen_two : E222.SecMul E222GenPoint 2 = E222.Add E222GenPoint E222GenPoint := by
  decide

/-- The ladder fixes the identity point (concrete scalar sample). -/
theorem SecMul_id_five : E222.SecMul E222IdPoint 5 = some E222IdPoint := by decide

/-! ## Claim theorems -/

/-- C4 counterexample: the explicit (x, y) constructor `NewE222XY` performs no
validation, so the claim that every point produced by a public constructor
satisfies the curve equation fails already at `NewE222XY(1, 1)`, which is not
on the curve. -/
theorem C4_counterexample : onCurveE222 (NewE222XY 1 1) = false := by decide

/-- C4 amended: the points produced by the generator and identity
constructors satisfy the curve equation x² + y² ≡ 1 + d·x²·y² (mod p); the
explicit (x, y) constructor does not validate it (see the counterexample),
and the decompression path can also return a non-satisfying point because of
the missing verification in `sqrt` (see C3). -/
theorem C4_amended : onCurveE222 E222GenPoint = true ∧ onCurveE222 E222IdPoint = true := by
  refine ⟨by decide, by decide⟩

/-- C3: the code is wrong.  `sqrt` verifies r² ≡ v (mod p) only in the branch
where the candidate's parity mismatches the requested `lsb`.  For the
radicand v = 2 — a quadratic non-residue mod p since p ≡ 3 (mod 8) — the
candidate 2^((p >> 2) + 1) mod p has least significant bit 1, so requesting
lsb = 1 returns the candidate with no verification, even though its square is
not 2: the operation returns a non-root instead of failing. -/
theorem C3_code_bug :
    E222.sqrt 2 (sqrtCand % 2).toNat = some sqrtCand ∧
    sqrtCand % 2 = 1 ∧
    (sqrtCand * sqrtCand) % E222.p ≠ 2 % E222.p := by
  refine ⟨by decide, by decide, by decide⟩

/-- C8: the code is wrong.  `getOpposite` writes `e.x.Neg(&e.x)`, storing −x
into the receiver's own coordinate, so after `A.getOpposite()` the point A
has x = −(old x): points are not immutable under this operation.  At the
generator, the receiver afterwards differs from the original point. -/
theorem C8_code_bug :
    E222.getOppositeReceiverAfter E222GenPoint ≠ E222GenPoint ∧
    (E222.getOppositeReceiverAfter E222GenPoint).x = -E222GenPoint.x := by
  refine ⟨by decide, rfl⟩

/-- C9 counterexample: `getOpposite` returns the coordinate −x unreduced, not
−x mod p reduced into the field: at the generator the returned x coordinate
is the negative integer −x, while the claim's point carries p − x. -/
theorem C9_counterexample :
    E222.getOpposite E222GenPoint ≠ NewE222XY (-E222GenPoint.x % E222.p) E222GenPoint.y := by
  decide

/-- C9 amended: `getOpposite P` is the point (−x, y) (congruent mod p to the
claimed (−x mod p, y) but not reduced), and adding P to a fresh copy of its
opposite yields the identity point (0, 1), for any P satisfying the curve
equation whose two addition denominators are invertible mod p. -/
theorem C9_amended (P : E222) (hc : onCurveE222 P = true)
    (hx : (modInverse ((1 + E222.d * P.x * -P.x * P.y * P.y) % E222.p) E222.p).isSome = true)
    (hy : (modInverse ((1 - E222.d * P.x * -P.x * P.y * P.y) % E222.p) E222.p).isSome = true) :
    E222.getOpposite P = NewE222XY (-P.x) P.y ∧
    E222.Add P (E222.getOpposite P) = some E222IdPoint := by
  refine ⟨rfl, ?_⟩
  rw [Option.isSome_iff_exists] at hx hy
  obtain ⟨xi, hxi⟩ := hx
  obtain ⟨yi, hyi⟩ := hy
  have hyinv : (((1 - E222.d * P.x * -P.x * P.y * P.y) % E222.p) * yi) % E222.p = 1 := by
    unfold modInverse at hyi
    simp only [] at hyi
    split at hyi
    · next hcond =>
      have hval : yi = ((powMod (((1 - E222.d * P.x * -P.x * P.y * P.y) % E222.p) % E222.p).toNat
          (E222.p - 2).toNat E222.p.toNat : Nat) : Int) := by
        exact (Option.some.injEq _ _ ▸ hyi).symm
      rw [hval]
      have hmm : ((1 - E222.d * P.x * -P.x * P.y * P.y) % E222.p) % E222.p
          = (1 - E222.d * P.x * -P.x * P.y * P.y) % E222.p := Int.emod_emod_of_dvd _ dvd_rfl
      rw [hmm] at hcond ⊢
      exact hcond
    · exact absurd hyi (by simp)
  have hcurve : (P.x ^ 2 + P.y ^ 2) % E222.p = (1 + E222.d * P.x ^ 2 * P.y ^ 2) % E222.p := by
    simpa [onCurveE222] using hc
  show E222.Add P (NewE222XY (-P.x) P.y) = some E222IdPoint
  unfold E222.Add NewE222XY
  simp only []
  rw [show (E222.d * P.x * (⟨-P.x, P.y⟩ : E222).x * P.y * (⟨-P.x, P.y⟩ : E222).y)
      = E222.d * P.x * -P.x * P.y * P.y from rfl]
  rw [hxi, hyi]
  simp only []
  have hnum0 : P.x * (⟨-P.x, P.y⟩ : E222).y + P.y * (⟨-P.x, P.y⟩ : E222).x = 0 := by
    show P.x * P.y + P.y * -P.x = 0
    ring
  rw [hnum0]
  have hzero : ((0 : Int) % E222.p * xi) % E222.p = 0 := by simp
  rw [hzero]
  have hynum : (P.y * (⟨-P.x, P.y⟩ : E222).y - P.x * (⟨-P.x, P.y⟩ : E222).x)
      = P.x ^ 2 + P.y ^ 2 := by
    show P.y * P.y - P.x * -P.x = P.x ^ 2 + P.y ^ 2
    ring
  have hyden : (1 - E222.d * P.x * -P.x * P.y * P.y) = 1 + E222.d * P.x ^ 2 * P.y ^ 2 := by
    ring
  rw [hynum]
  rw [hcurve, ← hyden]
  rw [hyinv]
  rfl

/-- C9 witness: the amended statement instantiated at the generator, with
every hypothesis discharged by evaluation. -/
theorem C9_witness :
    onCurveE222 E222GenPoint = true ∧
    (modInverse ((1 + E222.d * E222GenPoint.x * -E222GenPoint.x * E222GenPoint.y *
        E222GenPoint.y) % E222.p) E222.p).isSome = true ∧
    (modInverse ((1 - E222.d * E222GenPoint.x * -E222GenPoint.x * E222GenPoint.y *
        E222GenPoint.y) % E222.p) E222.p).isSome = true ∧
    (E222.getOpposite E222GenPoint = NewE222XY (-E222GenPoint.x) E222GenPoint.y ∧
     E222.Add E222GenPoint (E222.getOpposite E222GenPoint) = some E222IdPoint) :=
  ⟨by decide, by decide, by decide,
    C9_amended E222GenPoint (by decide) (by decide) (by decide)⟩

/-- C7 counterexample: the claim says the derived scalar is the hash times
the cofactor 4 reduced mod r (the prime subgroup order); the code reduces
mod the full group order n = 4·r instead.  With the E521 order left a
parameter (the constant is not among the provided sources), the two
computations differ, e.g. at subgroup order 7 (a prime) and hash value 2:
(4·2) mod 28 = 8 while (4·2) mod 7 = 1. -/
theorem C7_counterexample :
    Nat.Prime 7 ∧ generateKeyPairScalar 7 2 = 8 ∧ specKeyScalar 7 2 = 1 ∧
    generateKeyPairScalar 7 2 ≠ specKeyScalar 7 2 := by
  refine ⟨by decide, by decide, by decide, by decide⟩

/-- C7 amended: key derivation reduces 4·hash mod the full group order
n = 4·r (not mod r), signing recomputes 4·hash with no reduction at all, and
the three computations (the two in the code and the spec's mod-r version)
all agree exactly when 4·hash < r — which holds for every 512-bit hash
output when r is E-521's 519-bit subgroup order. -/
theorem C7_amended (r h : Nat) (hr : 0 < r) :
    generateKeyPairScalar r h = (4 * h) % (4 * r) ∧
    signWithKeyScalar h = 4 * h ∧
    (4 * h < r →
      generateKeyPairScalar r h = specKeyScalar r h ∧
      signWithKeyScalar h = specKeyScalar r h) := by
  refine ⟨rfl, rfl, fun hlt => ?_⟩
  unfold generateKeyPairScalar specKeyScalar signWithKeyScalar E521n
  rw [Nat.mod_eq_of_lt (by omega), Nat.mod_eq_of_lt hlt]
  exact ⟨rfl, rfl⟩

/-- C7 witness: the amended statement instantiated at a 519-bit subgroup
order and the hash value 5. -/
theorem C7_witness :
    generateKeyPairScalar (2 ^ 519) 5 = specKeyScalar (2 ^ 519) 5 ∧
    signWithKeyScalar 5 = specKeyScalar (2 ^ 519) 5 :=
  (C7_amended (2 ^ 519) 5 (by decide)).2.2 (by decide)

/-- C10: confirmed.  In the first `sign_message_ecdsa` (which adds 1, reduces
mod n, then subtracts 1), the 40-byte nonce value n — representable since
n < 2^320 — yields k = 0, for which `ModInverse(k, n)` has no value (the
model returns `none`, where the source would fault computing s), so signing
does not establish the precondition k ∈ [1, n−1]. -/
theorem C10_nonce_zero :
    (((p256n.toNat : Int) + 1) % p256n - 1 = 0) ∧
    modInverse 0 p256n = none ∧
    sign_message_ecdsa 0 1 p256n.toNat = none ∧
    p256n.toNat < 2 ^ 320 := by
  refine ⟨by decide, by decide, by decide, by decide⟩

/-- C2: the code is wrong.  Neither copy of `sign_message_ecdsa` loops back
when s = 0; both are straight-line computations, despite their own step
comments ("if S = 0, go to step 3" / "get a new k") and the spec's mandatory
retry.  With message hash z = 3, nonce bytes 0 (second copy) or 1 (first
copy) — both giving k = 1, hence r = Gx mod n — and the private key
d = (n − 3)·(Gx mod n)⁻¹ mod n, both copies return the degenerate signature
(r, 0). -/
theorem C2_code_bug :
    sign_message_ecdsa2 3 dStar 0 = some (p256Gx, 0) ∧
    sign_message_ecdsa 3 dStar 1 = some (p256Gx, 0) := by
  refine ⟨by decide, by decide⟩

/-- C1 counterexample: tampering with s does not always make verification
fail.  For the valid key pair d = 1, Q = G, nonce bytes 1 and message hash
z = 3, signing returns (r, s) = (Gx, Gx + 3); replacing s by n − s ≠ s still
verifies (ECDSA signatures are malleable in s). -/
theorem C1_counterexample :
    sign_message_ecdsa 3 1 1 = some (p256Gx, p256Gx + 3) ∧
    verify_ecdsa_sig p256Gx p256Gy p256Gx (p256n - (p256Gx + 3)) 3 = true ∧
    p256n - (p256Gx + 3) ≠ p256Gx + 3 := by
  refine ⟨by decide, by decide, by decide⟩

/-- C1 amended: any public key that is not on the curve is rejected (for all
r, s, z); for the valid key pair d = 1, Q = G with nonce bytes 1 and message
hash z = 3, the honest signature (Gx, Gx + 3) verifies; tampering with the
message hash, with r, or by shifting s is rejected; but the tampered s value
n − s is accepted, so tampering with s does not always fail. -/
theorem C1_amended :
    (∀ (Qx Qy r s : Int) (z : Nat), isOnCurve Qx Qy = false →
      verify_ecdsa_sig Qx Qy r s z = false) ∧
    verify_ecdsa_sig p256Gx p256Gy p256Gx (p256Gx + 3) 3 = true ∧
    verify_ecdsa_sig p256Gx p256Gy p256Gx (p256Gx + 3) 4 = false ∧
    verify_ecdsa_sig p256Gx p256Gy (p256Gx - 1) (p256Gx + 3) 3 = false ∧
    verify_ecdsa_sig p256Gx p256Gy p256Gx (p256Gx + 4) 3 = false ∧
    verify_ecdsa_sig p256Gx p256Gy p256Gx (p256n - (p256Gx + 3)) 3 = true := by
  refine ⟨?_, by decide, by decide, by decide, by decide, by decide⟩
  intro Qx Qy r s z h
  have hpk : pubKeyCheck Qx Qy = false := by
    unfold pubKeyCheck
    simp only [h, Bool.true_and, Bool.false_and]
  simp [verify_ecdsa_sig, hpk]

/-- C1 witness: the off-curve rejection applied at the point (1, 1), which is
not on the P-256 curve. -/
theorem C1_witness :
    isOnCurve 1 1 = false ∧ verify_ecdsa_sig 1 1 5 5 9 = false :=
  ⟨by decide, C1_amended.1 1 1 5 5 9 (by decide)⟩

/-- C6 counterexample: the verifier's range check is written with strict
comparisons against 1 (`r.Cmp(one) > 0`), so the boundary value r = 1 — which
the claim says proceeds to the equation check — is rejected on range grounds:
for the valid public key G, the in-[1, n−1] pair (r, s) = (1, 2) fails the
code's range check and verification returns false. -/
theorem C6_counterexample :
    pubKeyCheck p256Gx p256Gy = true ∧
    ((1 : Int) ≤ 1 ∧ (1 : Int) ≤ p256n - 1 ∧ (1 : Int) ≤ 2 ∧ (2 : Int) ≤ p256n - 1) ∧
    sigRangeOK 1 2 = false ∧
    verify_ecdsa_sig p256Gx p256Gy 1 2 7 = false := by
  refine ⟨by decide, by decide, by decide, by decide⟩

/-- C6 amended: verification is the conjunction of the key validation, the
range check and the equation check, and the code's range check accepts
exactly r, s ∈ [2, n−1] — the boundary values r = 1 and s = 1 are rejected on
range grounds, unlike the claimed [1, n−1]. -/
theorem C6_amended (Qx Qy r s : Int) (z : Nat) :
    verify_ecdsa_sig Qx Qy r s z
      = (pubKeyCheck Qx Qy && (sigRangeOK r s && sigEqCheck Qx Qy r s z)) ∧
    (sigRangeOK r s = true ↔ (2 ≤ r ∧ r ≤ p256n - 1 ∧ 2 ≤ s ∧ s ≤ p256n - 1)) := by
  constructor
  · cases h1 : pubKeyCheck Qx Qy <;> cases h2 : sigRangeOK r s <;>
      simp [verify_ecdsa_sig, h1, h2]
  · simp only [sigRangeOK, Bool.and_eq_true, decide_eq_true_eq]
    constructor
    · rintro ⟨⟨⟨a, b⟩, c⟩, d⟩
      refine ⟨by omega, by omega, by omega, by omega⟩
    · rintro ⟨a, b, c, d⟩
      refine ⟨⟨⟨by omega, by omega⟩, by omega⟩, by omega⟩
